import Mathlib

/-!
# Verification of the interSeg3D-Studio spatial index and selection engine

This file gives a shallow embedding, in Lean 4, of the algorithmic core of the
interSeg3D-Studio frontend:

* `GridSpatialIndexUtil` (grid-based spatial index over a flat position buffer),
  from `src/frontend/utils/gridSpatialIndex.util.ts`;
* the point-resolution helper `findNearestPoint`, from the raycasting composable;
* the selection/undo/redo engine of `src/frontend/stores/annotation.store.ts`
  (`addClickPoint`, `applySelection`, `restorePointColors`, `undo`, `redo`);
* the chunked segmentation color applier `applySegmentation` of
  `src/frontend/services/threeJs.service.ts`;
* the color helpers of `src/frontend/utils/color.util.ts`, including a faithful
  rational-arithmetic model of `THREE.Color.setHSL`.

Modelling conventions:

* JavaScript numbers are modelled as rationals (`ℚ`); the code under scrutiny
  only performs `+ - * /`, comparisons, `Math.floor` and `%` on them, all of
  which are exact on the inputs the claims quantify over.
* A flat `Float32Array` of `3 * N` color (resp. position) components is modelled
  as a `List` of `N` RGB (resp. XYZ) triples; every access in the source is
  triple-aligned (`3 * i`, `3 * i + 1`, `3 * i + 2`).
* Writing out of range into a typed array is a no-op in JavaScript, which
  coincides with `List.set` beyond the list length.
* The JS `Map<string, number[]>` keyed by the string `x,y,z` is modelled as an
  association list keyed by the integer triple itself (the string encoding of
  integer triples is injective, so the two keyings agree).
* External collaborators (three.js scene, meshes, markers, `needsUpdate`
  flags, console logging, performance timers) have no influence on the data the
  claims speak about and are not part of the state; marker ids (produced from
  `Date.now()` and `Math.random()` in the source) are drawn from a counter so
  that the model stays deterministic.
-/

/-! ## Basic numeric and color model -/

/-- An RGB color triple; one entry of the (conceptually flat) color buffer. -/
structure Color3 where
  r : ℚ
  g : ℚ
  b : ℚ
deriving DecidableEq, Repr, Inhabited

/-- A 3D position; one entry of the (conceptually flat) position buffer. -/
structure Vec3 where
  x : ℚ
  y : ℚ
  z : ℚ
deriving DecidableEq, Repr, Inhabited

/-- Truncation toward zero, the rounding used by the JavaScript `%` operator. -/
def ratTrunc (q : ℚ) : ℤ :=
  if 0 ≤ q then ⌊q⌋ else -⌊-q⌋

/-- The JavaScript remainder operator `%` on numbers: the remainder has the
sign of the dividend. -/
def jsMod (n m : ℚ) : ℚ :=
  n - m * ratTrunc (n / m)

/-- `THREE.MathUtils.euclideanModulo( n, m ) = ( ( n % m ) % m + m ) % m`. -/
def euclideanModulo (n m : ℚ) : ℚ :=
  jsMod (jsMod (jsMod n m) m + m) m

/-- `THREE.MathUtils.clamp( value, min, max )`. -/
def clampQ (value lo hi : ℚ) : ℚ :=
  max lo (min hi value)

/-- The `hue2rgb` helper of `THREE.Color.setHSL`. -/
def hue2rgb (p q t : ℚ) : ℚ :=
  let t := if t < 0 then t + 1 else t
  let t := if t > 1 then t - 1 else t
  if t < 1 / 6 then p + (q - p) * 6 * t
  else if t < 1 / 2 then q
  else if t < 2 / 3 then p + (q - p) * 6 * (2 / 3 - t)
  else p

/-- `THREE.Color.setHSL` (the plain HSL-to-RGB conversion, no color-space
management), translated to exact rational arithmetic. -/
def setHSL (h s l : ℚ) : Color3 :=
  let h := euclideanModulo h 1
  let s := clampQ s 0 1
  let l := clampQ l 0 1
  if s = 0 then ⟨l, l, l⟩
  else
    let p := if l ≤ 1 / 2 then l * (1 + s) else l + s - l * s
    let q := 2 * l - p
    ⟨hue2rgb q p (h + 1 / 3), hue2rgb q p h, hue2rgb q p (h - 1 / 3)⟩

/-- JS `%` on integers (`(index * 50) % 360`): remainder with the dividend's
sign, which is `Int.tmod`. -/
def jsModInt (n m : ℤ) : ℤ :=
  Int.tmod n m

/-- `getColorFromIndex` from `color.util.ts`:
`hue = (index * 50) % 360; new THREE.Color().setHSL(hue / 360, 1.0, 0.5)`. -/
def getColorFromIndex (index : ℤ) : Color3 :=
  setHSL ((jsModInt (index * 50) 360 : ℚ) / 360) 1 (1 / 2)

/-- Click mode, the first argument of `getSelectionColor`. -/
inductive ClickMode where
  | object
  | background
deriving DecidableEq, Repr

/-- `getSelectionColor` from `color.util.ts`. -/
def getSelectionColor (mode : ClickMode) (objectIdx : Option ℤ) : Color3 :=
  match mode, objectIdx with
  | ClickMode.background, _ => ⟨1 / 10, 1 / 10, 1 / 10⟩
  | ClickMode.object, some idx => getColorFromIndex idx
  | ClickMode.object, none => ⟨1, 1, 1⟩

/-! ## GridSpatialIndexUtil -/

/-- Integer cell coordinate, the `"x,y,z"` key of the JS `Map`. -/
abbrev CellKey := ℤ × ℤ × ℤ

/-- The cell key of a position: `Math.floor(coordinate / cellSize)` per axis
(`getCellKey` in the source). -/
def cellKey (cellSize : ℚ) (p : Vec3) : CellKey :=
  (⌊p.x / cellSize⌋, ⌊p.y / cellSize⌋, ⌊p.z / cellSize⌋)

/-- Add point index `i` to the cell `k` of the association list: appends to the
first entry with key `k`, or adds a fresh `(k, [i])` entry at the end.  This is
exactly the `Map` update `if (!cells.has(key)) cells.set(key, []);
cells.get(key)!.push(i / 3)` of `build`. -/
def insertToCell (cells : List (CellKey × List ℕ)) (k : CellKey) (i : ℕ) :
    List (CellKey × List ℕ) :=
  match cells with
  | [] => [(k, [i])]
  | (k', l) :: rest =>
      if k' = k then (k', l ++ [i]) :: rest else (k', l) :: insertToCell rest k i

/-- The populated cell map of `GridSpatialIndexUtil.build`: every point index
`0 ≤ i < positions.length` is inserted into the cell of its coordinates. -/
def buildCells (positions : List Vec3) (cellSize : ℚ) : List (CellKey × List ℕ) :=
  (List.range positions.length).foldl
    (fun cells i => insertToCell cells (cellKey cellSize (positions.getD i default)) i) []

/-- The state of a built `GridSpatialIndexUtil` (the `bounds` field of the
source is not consulted by any of the operations the claims mention). -/
structure GridIndex where
  cellSize : ℚ
  cells : List (CellKey × List ℕ)
  pointCount : ℕ
deriving Repr

/-- `GridSpatialIndexUtil.build` over a position buffer. -/
def buildIndex (positions : List Vec3) (cellSize : ℚ) : GridIndex :=
  { cellSize := cellSize
    cells := buildCells positions cellSize
    pointCount := positions.length }

/-- Look up the point list of a cell; a missing key behaves like the empty
list (the source skips missing cells: `if (cellPoints) result.push(...)`, and
no populated cell is ever empty). -/
def getCellPoints (cells : List (CellKey × List ℕ)) (k : CellKey) : List ℕ :=
  (List.lookup k cells).getD []

/-- The inclusive integer range `[a, b]`, empty when `b < a` — the iteration
space of one axis of the triple loop in `findPointsInCube`. -/
def intRange (a b : ℤ) : List ℤ :=
  (List.range (b + 1 - a).toNat).map (fun (j : ℕ) => a + (j : ℤ))

/-- The list of cell keys scanned by `findPointsInCube`, in loop order
(`x` outermost, `z` innermost). -/
def scannedKeys (g : GridIndex) (position : Vec3) (size : ℚ) : List CellKey :=
  let minX := ⌊(position.x - size) / g.cellSize⌋
  let maxX := ⌊(position.x + size) / g.cellSize⌋
  let minY := ⌊(position.y - size) / g.cellSize⌋
  let maxY := ⌊(position.y + size) / g.cellSize⌋
  let minZ := ⌊(position.z - size) / g.cellSize⌋
  let maxZ := ⌊(position.z + size) / g.cellSize⌋
  (intRange minX maxX).flatMap fun x =>
    (intRange minY maxY).flatMap fun y =>
      (intRange minZ maxZ).map fun z => (x, y, z)

/-- `GridSpatialIndexUtil.findPointsInCube(position, size)`: compute the cell
range covering `[position - size, position + size]` per axis and concatenate
the point lists of every cell in that range. -/
def findPointsInCube (g : GridIndex) (position : Vec3) (size : ℚ) : List ℕ :=
  (scannedKeys g position size).flatMap fun k => getCellPoints g.cells k

/-! ## findNearestPoint (raycasting composable) -/

/-- The result of `findNearestPoint`: the stored position of the nearest point
and its index (`nearestIndex` is a JS number that passed the `>= 0` check). -/
structure ClickResult where
  position : Vec3
  index : ℤ
deriving DecidableEq, Repr

/-- `Number.MAX_VALUE`, the initial value of `minDist`. -/
def numberMaxValue : ℚ := (2 ^ 53 - 1) * 2 ^ 971

/-- Squared Euclidean distance between the stored position of point `idx` and
the query `position`, as computed inside the candidate loop. -/
def sqDistTo (positions : List Vec3) (position : Vec3) (idx : ℕ) : ℚ :=
  let p := positions.getD idx default
  (p.x - position.x) ^ 2 + (p.y - position.y) ^ 2 + (p.z - position.z) ^ 2

/-- The body of the candidate loop of `findNearestPoint`:
`if (dist < minDist) { minDist = dist; nearestIndex = idx; }`. -/
def nearestStep (positions : List Vec3) (position : Vec3) (acc : ℚ × ℤ)
    (idx : ℕ) : ℚ × ℤ :=
  let dist := sqDistTo positions position idx
  if dist < acc.1 then (dist, (idx : ℤ)) else acc

/-- `findNearestPoint` from the raycasting composable: query the spatial index
with the current cube size, then take the candidate with the smallest squared
distance (`dist < minDist`, `minDist` starting at `Number.MAX_VALUE` and
`nearestIndex` at `-1`).  The `maxDistance` parameter is accepted but, as in
the source, unused on the spatial-index path. -/
def findNearestPoint (g : GridIndex) (positions : List Vec3) (cubeSize : ℚ)
    (position : Vec3) (_maxDistance : ℚ := 1 / 10) : Option ClickResult :=
  let pointIndices := findPointsInCube g position cubeSize
  if 0 < pointIndices.length then
    let best := pointIndices.foldl (nearestStep positions position)
      (numberMaxValue, -1)
    if 0 ≤ best.2 then
      some { position := positions.getD best.2.toNat default, index := best.2 }
    else none
  else none

/-! ## SegmentationColorApplier (`applySegmentation` in threeJs.service.ts) -/

/-- The fields of `PointCloudData` consulted by `applySegmentation`; the color
buffers are `Option`s because the source guards against their absence
(`!data.geometry || !data.currentColors || !data.originalColors`). -/
structure PointCloudData where
  hasGeometry : Bool
  currentColors : Option (List Color3)
  originalColors : Option (List Color3)
  pointCount : ℕ
deriving Repr

/-- Recolor point `i`: a nonzero label gets `getColorFromIndex(label)`, label
`0` copies the original color. -/
def processPoint (seg : List ℤ) (orig : List Color3) (colors : List Color3) (i : ℕ) :
    List Color3 :=
  let label := seg.getD i 0
  if label ≠ 0 then colors.set i (getColorFromIndex label)
  else colors.set i (orig.getD i default)

/-- Recolor the index range `[lo, hi)` — the body of one chunk. -/
def processRange (seg : List ℤ) (orig : List Color3) (colors : List Color3)
    (lo hi : ℕ) : List Color3 :=
  (List.range' lo (hi - lo)).foldl (processPoint seg orig) colors

/-- The chunk size of `applySegmentation` (`const chunkSize = 100000`). -/
def segChunkSize : ℕ := 100000

/-- The `processNextChunk` recursion: process `[cur, min (cur + chunkSize) n)`,
then either schedule the next chunk or fire `onComplete`.  Returns the final
colors, the number of `onComplete` invocations issued from this point on, and
the number of points processed. -/
def processChunks (seg : List ℤ) (orig : List Color3) (n : ℕ) (cur : ℕ)
    (colors : List Color3) : List Color3 × ℕ × ℕ :=
  let endIndex := min (cur + segChunkSize) n
  let colors' := processRange seg orig colors cur endIndex
  if h : endIndex < n then
    let rest := processChunks seg orig n endIndex colors'
    (rest.1, rest.2.1, (endIndex - cur) + rest.2.2)
  else
    (colors', 1, endIndex - cur)
termination_by n - cur
decreasing_by
  simp only [segChunkSize] at *
  omega

/-- The outcome of a call to `applySegmentation`: the final `currentColors`
buffer, how many times `onComplete` fired, and how many points were iterated
over. -/
structure SegResult where
  currentColors : Option (List Color3)
  completeCalls : ℕ
  processedPoints : ℕ
deriving Repr

/-- `ThreeJsService.applySegmentation(data, segmentation, onProgress?,
onComplete?)`.  The two early-return error paths (missing buffers, label-count
mismatch) report and fire `onComplete` without touching the buffer; otherwise
the chunked recolor loop runs to completion. -/
def applySegmentation (data : PointCloudData) (seg : List ℤ) : SegResult :=
  if data.hasGeometry = false ∨ data.currentColors = none ∨ data.originalColors = none then
    { currentColors := data.currentColors, completeCalls := 1, processedPoints := 0 }
  else if seg.length ≠ data.pointCount then
    { currentColors := data.currentColors, completeCalls := 1, processedPoints := 0 }
  else
    let orig := data.originalColors.getD []
    let colors := data.currentColors.getD []
    let res := processChunks seg orig data.pointCount 0 colors
    { currentColors := some res.1, completeCalls := res.2.1, processedPoints := res.2.2 }

/-- Modelled from the spec: the hypothetical single-pass apply that the chunked
`SegmentationColorApplier` is claimed to refine — for each point `i`, write
`getColorFromIndex(label[i])` when `label[i] ≠ 0` and copy `originalColors` at
`i` when `label[i] = 0`. -/
def singlePassApplySpec (seg : List ℤ) (orig : List Color3) (colors : List Color3) :
    List Color3 :=
  (List.range colors.length).map fun i =>
    if seg.getD i 0 ≠ 0 then getColorFromIndex (seg.getD i 0)
    else orig.getD i default

/-! ## Selection engine (annotation store) -/

/-- `ClickPoint` from `selection.types.ts` as used by the store: `timeIdx` is
assigned from the current click-list length at creation. -/
structure ClickPoint where
  position : Vec3
  objectIdx : ℤ
  timeIdx : ℕ
  index : Option ℕ
deriving DecidableEq, Repr

/-- `SelectionHistoryAction` of the store.  The `type` field is omitted: every
action the store ever pushes has `type: 'add'`.  Marker ids are modelled as
naturals drawn from a deterministic counter. -/
structure HistAction where
  clickPoint : ClickPoint
  markerId : Option ℕ
  affectedPointIndices : Option (List ℕ)
  previousColors : Option (List Color3)
deriving DecidableEq, Repr

/-- The store state the claims quantify over: the active click list, the two
history stacks (top of stack = last list element, matching JS `push`/`pop`),
the mutable color buffer, and the marker-id counter. -/
structure AnnState where
  clickedPoints : List ClickPoint
  undoStack : List HistAction
  redoStack : List HistAction
  currentColors : List Color3
  nextMarkerId : ℕ
deriving DecidableEq, Repr

/-- The read-only collaborators of `applySelection`: the built spatial index of
the point-cloud store and the cube half-width of the UI store (fixed across
a click sequence, as the claims require). -/
structure AnnEnv where
  spatialIndex : GridIndex
  cubeSize : ℚ
deriving Repr

/-- Apply `f` to the last element of a list (the JS mutation of
`stack[stack.length - 1]`); the empty list is left untouched, matching the
`if (stack.length > 0)` guard at every use site. -/
def updateLast (f : HistAction → HistAction) : List HistAction → List HistAction
  | [] => []
  | [a] => [f a]
  | a :: rest => a :: updateLast f rest

/-- `addClickPoint(position, objectIdx, index?, markerId?, fromUndo)` of the
store.  `timeIdx` is the current length of the click list.  When not replaying
(`fromUndo = false`, which at every reachable call site coincides with
`!fromUndo && !isUndoRedoOperation`), the redo stack is cleared and a fresh
history action is pushed. -/
def addClickPoint (st : AnnState) (position : Vec3) (objectIdx : ℤ)
    (index : Option ℕ) (markerId : Option ℕ) (fromUndo : Bool) :
    AnnState × ClickPoint :=
  let cp : ClickPoint :=
    { position := position, objectIdx := objectIdx,
      timeIdx := st.clickedPoints.length, index := index }
  let st1 := { st with clickedPoints := st.clickedPoints ++ [cp] }
  if fromUndo then (st1, cp)
  else
    ({ st1 with
        redoStack := []
        undoStack := st1.undoStack ++
          [{ clickPoint := cp, markerId := markerId,
             affectedPointIndices := none, previousColors := none }] }, cp)

/-- The value returned by `applySelection`: `{count, indices}`. -/
structure SelResult where
  count : ℕ
  indices : List ℕ
deriving DecidableEq, Repr

/-- Overwrite the color buffer at every index of `idxs` with `color` — the
write loop of `applySelection` (wrapping the loop in `if (length > 0)` is
redundant for the fold, which does nothing on `[]`). -/
def writeColorAt (colors : List Color3) (idxs : List ℕ) (color : Color3) :
    List Color3 :=
  idxs.foldl (fun cc idx => cc.set idx color) colors

/-- `applySelection(position, objectIdx, fromUndo)` of the store.  Background
(`objectIdx == 0`) returns zero affected points without touching anything.
Otherwise the spatial index is queried at the click position with the UI cube
size; on a fresh (non-replay) call the pre-mutation colors of the affected
points are captured into the last undo-stack action; finally the label color
overwrites the buffer at the affected indices.  The early return for missing
point-cloud data is not modelled: the environment always carries a loaded
cloud. -/
def applySelection (env : AnnEnv) (st : AnnState) (position : Vec3)
    (objectIdx : ℤ) (fromUndo : Bool) : AnnState × SelResult :=
  if objectIdx = 0 then (st, { count := 0, indices := [] })
  else
    let color := getSelectionColor ClickMode.object (some objectIdx)
    let pointIndices := findPointsInCube env.spatialIndex position env.cubeSize
    let st1 :=
      if fromUndo = false ∧ 0 < pointIndices.length then
        let previousColors :=
          pointIndices.map (fun idx => st.currentColors.getD idx default)
        { st with
            undoStack := updateLast
              (fun a => { a with
                  affectedPointIndices := some pointIndices,
                  previousColors := some previousColors }) st.undoStack }
      else st
    ({ st1 with currentColors := writeColorAt st1.currentColors pointIndices color },
     { count := pointIndices.length, indices := pointIndices })

/-- The restore loop of `restorePointColors(indices, colors)`: for each `i`,
`currentColors[indices[i]] := colors[i]`. -/
def restoreColors (current : List Color3) (indices : List ℕ)
    (colors : List Color3) : List Color3 :=
  (List.range indices.length).foldl
    (fun cc i => cc.set (indices.getD i 0) (colors.getD i default)) current

/-- `restorePointColors` of the store, acting on the state. -/
def restorePointColors (st : AnnState) (indices : List ℕ)
    (colors : List Color3) : AnnState :=
  { st with currentColors := restoreColors st.currentColors indices colors }

/-- `undo()` of the store: pop the last action, move it to the redo stack,
restore the captured colors, and remove the matching click (first active click
with the action's `timeIdx` and `objectIdx`).  The re-entrancy guard
(`isUndoInProgress` plus its 300 ms cool-down timer) is real-time behaviour;
each modelled call stands for an invocation after the previous cool-down has
elapsed. -/
def undo (st : AnnState) : AnnState × Option HistAction :=
  match st.undoStack.getLast? with
  | none => (st, none)
  | some lastAction =>
      let st1 := { st with
        undoStack := st.undoStack.dropLast
        redoStack := st.redoStack ++ [lastAction] }
      let st2 :=
        match lastAction.affectedPointIndices, lastAction.previousColors with
        | some idxs, some cols => restorePointColors st1 idxs cols
        | _, _ => st1
      let st3 :=
        match st2.clickedPoints.findIdx?
            (fun p => p.timeIdx == lastAction.clickPoint.timeIdx &&
                      p.objectIdx == lastAction.clickPoint.objectIdx) with
        | some i => { st2 with clickedPoints := st2.clickedPoints.eraseIdx i }
        | none => st2
      (st3, some lastAction)

/-- `redo()` of the store: pop the last undone action, push it back onto the
undo stack, replay `addClickPoint` and (for object clicks) `applySelection`
with `fromUndo = true`, then recreate a marker and store its id in the action
— which, the action object being shared with the undo stack, updates the entry
just pushed there. -/
def redo (env : AnnEnv) (st : AnnState) : AnnState × Option HistAction :=
  match st.redoStack.getLast? with
  | none => (st, none)
  | some action =>
      let st1 := { st with
        redoStack := st.redoStack.dropLast
        undoStack := st.undoStack ++ [action] }
      let st2 := (addClickPoint st1 action.clickPoint.position
        action.clickPoint.objectIdx action.clickPoint.index
        action.markerId true).1
      let st3 :=
        if action.clickPoint.objectIdx ≠ 0 then
          (applySelection env st2 action.clickPoint.position
            action.clickPoint.objectIdx true).1
        else st2
      let newId := st3.nextMarkerId
      let st4 := { st3 with
        nextMarkerId := newId + 1
        undoStack := updateLast (fun a => { a with markerId := some newId })
          st3.undoStack }
      (st4, some { action with markerId := some newId })

/-! ## Click sequences (drivers for the round-trip claims) -/

/-- One user click, as fed to the claims: resolved position, object label, and
the resolved point index. -/
structure Click where
  position : Vec3
  objectIdx : ℤ
  index : Option ℕ
deriving DecidableEq, Repr

/-- One full user click as the claims apply it: `addClickPoint` followed by
`applySelection`, both fresh (`fromUndo = false`). -/
def applyClick (env : AnnEnv) (st : AnnState) (c : Click) : AnnState :=
  (applySelection env
    (addClickPoint st c.position c.objectIdx c.index none false).1
    c.position c.objectIdx false).1

/-- A sequence of user clicks applied in order. -/
def applyClicks (env : AnnEnv) (st : AnnState) (cs : List Click) : AnnState :=
  cs.foldl (applyClick env) st

/-- `n` successive `undo()` calls (each after the previous cool-down). -/
def undoSteps (n : ℕ) (st : AnnState) : AnnState :=
  (fun s => (undo s).1)^[n] st

/-- `n` successive `redo()` calls (each after the previous cool-down). -/
def redoSteps (env : AnnEnv) (n : ℕ) (st : AnnState) : AnnState :=
  (fun s => (redo env s).1)^[n] st

/-- The color the recolor pass assigns to point `i` (label color for nonzero
labels, original color for label `0`). -/
def pointColor (seg : List ℤ) (orig : List Color3) (i : ℕ) : Color3 :=
  if seg.getD i 0 ≠ 0 then getColorFromIndex (seg.getD i 0) else orig.getD i default

/-- The undo stack after the capture phase of a fresh `applySelection`: when
the cube query is non-empty, the last pushed action receives the affected
indices and the pre-mutation colors. -/
def selCapture (env : AnnEnv) (st : AnnState) (position : Vec3) :
    List HistAction :=
  let idxs := findPointsInCube env.spatialIndex position env.cubeSize
  if 0 < idxs.length then
    updateLast (fun a => { a with
      affectedPointIndices := some idxs,
      previousColors := some (idxs.map (fun i => st.currentColors.getD i default)) })
      st.undoStack
  else st.undoStack

/-- A one-point environment shared by the concrete examples: a single point at
`(1/2, 1/2, 1/2)`, cell size `1`, cube half-width `1/4`. -/
def exEnv : AnnEnv :=
  { spatialIndex := buildIndex [⟨1/2, 1/2, 1/2⟩] 1, cubeSize := 1/4 }

/-- The fresh store state over `exEnv`: no clicks, empty stacks, the single
point colored black. -/
def exState : AnnState :=
  { clickedPoints := [], undoStack := [], redoStack := [],
    currentColors := [⟨0, 0, 0⟩], nextMarkerId := 0 }

/-- The color-buffer effect of one object click: overwrite the queried cube
with the label color. -/
def clickWrite (env : AnnEnv) (C : List Color3) (position : Vec3)
    (objectIdx : ℤ) : List Color3 :=
  writeColorAt C (findPointsInCube env.spatialIndex position env.cubeSize)
    (getSelectionColor ClickMode.object (some objectIdx))

/-- The color buffer after a sequence of object clicks. -/
def runColors (env : AnnEnv) (C : List Color3) (cs : List Click) : List Color3 :=
  cs.foldl (fun cc c => clickWrite env cc c.position c.objectIdx) C

/-- The history action recorded for one object click applied on color buffer
`C` with `clickedPoints.length = t`: the `addClickPoint` push, later filled in
by the capture phase of `applySelection` when the cube query is non-empty. -/
def mkAct (env : AnnEnv) (C : List Color3) (t : ℕ) (c : Click) : HistAction :=
  let act : HistAction :=
    { clickPoint := ⟨c.position, c.objectIdx, t, c.index⟩
      markerId := none
      affectedPointIndices := none
      previousColors := none }
  let idxs := findPointsInCube env.spatialIndex c.position env.cubeSize
  if 0 < idxs.length then
    { act with
        affectedPointIndices := some idxs
        previousColors := some (idxs.map (fun i => C.getD i default)) }
  else act

/-- The history actions recorded by a sequence of object clicks. -/
def actsOf (env : AnnEnv) (C : List Color3) (t : ℕ) : List Click → List HistAction
  | [] => []
  | c :: cs =>
      mkAct env C t c ::
        actsOf env (clickWrite env C c.position c.objectIdx) (t + 1) cs

/-- The color restoration performed by `undo` for one popped action. -/
def restoreAct (C : List Color3) (a : HistAction) : List Color3 :=
  match a.affectedPointIndices, a.previousColors with
  | some idxs, some cols => restoreColors C idxs cols
  | _, _ => C

/-! ## Lemmas: the cell map built by `build` -/

theorem getCellPoints_nil (k : CellKey) : getCellPoints [] k = [] := rfl

theorem getCellPoints_cons (k' : CellKey) (l : List ℕ)
    (rest : List (CellKey × List ℕ)) (k : CellKey) :
    getCellPoints ((k', l) :: rest) k =
      if k = k' then l else getCellPoints rest k := by
  by_cases h : k = k'
  · simp [getCellPoints, List.lookup_cons, h]
  · simp [getCellPoints, List.lookup_cons, beq_false_of_ne h, h]

theorem getCellPoints_insertToCell (cells : List (CellKey × List ℕ))
    (k0 k : CellKey) (i : ℕ) :
    getCellPoints (insertToCell cells k0 i) k =
      if k = k0 then getCellPoints cells k ++ [i] else getCellPoints cells k := by
  induction cells with
  | nil =>
      by_cases h : k = k0 <;>
        simp [insertToCell, getCellPoints_cons, getCellPoints_nil, h]
  | cons hd rest ih =>
      obtain ⟨k', l⟩ := hd
      by_cases h0 : k' = k0
      · subst h0
        rw [insertToCell, if_pos rfl, getCellPoints_cons, getCellPoints_cons]
        by_cases h : k = k' <;> simp [h]
      · rw [insertToCell, if_neg h0, getCellPoints_cons, getCellPoints_cons, ih]
        by_cases h : k = k'
        · subst h
          rw [if_pos rfl, if_neg h0, if_pos rfl]
        · simp [h]

theorem getCellPoints_buildCells (ps : List Vec3) (cs : ℚ) (k : CellKey) :
    getCellPoints (buildCells ps cs) k =
      (List.range ps.length).filter
        (fun i => cellKey cs (ps.getD i default) == k) := by
  suffices h : ∀ m,
      getCellPoints ((List.range m).foldl
        (fun cells i => insertToCell cells (cellKey cs (ps.getD i default)) i) []) k =
      (List.range m).filter (fun i => cellKey cs (ps.getD i default) == k) by
    exact h ps.length
  intro m
  induction m with
  | zero => simp [getCellPoints_nil]
  | succ m ih =>
      rw [List.range_succ, List.foldl_append, List.filter_append]
      rw [List.foldl_cons, List.foldl_nil, getCellPoints_insertToCell, ih]
      rw [List.filter_cons, List.filter_nil]
      by_cases h : cellKey cs (ps.getD m default) = k
      · rw [if_pos h.symm,
          if_pos (show (cellKey cs (ps.getD m default) == k) = true from
            beq_iff_eq.mpr h)]
      · rw [if_neg (fun hh => h hh.symm),
          if_neg (show ¬(cellKey cs (ps.getD m default) == k) = true from
            by simpa using h),
          List.append_nil]

theorem mem_getCellPoints_buildCells {ps : List Vec3} {cs : ℚ} {k : CellKey}
    {j : ℕ} :
    j ∈ getCellPoints (buildCells ps cs) k ↔
      j < ps.length ∧ cellKey cs (ps.getD j default) = k := by
  rw [getCellPoints_buildCells, List.mem_filter]
  simp [List.mem_range, and_comm]

theorem nodup_getCellPoints_buildCells (ps : List Vec3) (cs : ℚ) (k : CellKey) :
    (getCellPoints (buildCells ps cs) k).Nodup := by
  rw [getCellPoints_buildCells]
  exact (List.nodup_range _).filter _

/-! ## Lemmas: the scan range of `findPointsInCube` -/

theorem mem_intRange {a b t : ℤ} : t ∈ intRange a b ↔ a ≤ t ∧ t ≤ b := by
  rw [intRange]
  simp only [List.mem_map, List.mem_range]
  constructor
  · rintro ⟨j, hj, rfl⟩
    omega
  · intro h
    refine ⟨(t - a).toNat, by omega, by omega⟩

theorem nodup_intRange (a b : ℤ) : (intRange a b).Nodup := by
  rw [intRange]
  refine List.Nodup.map ?_ (List.nodup_range _)
  intro x y h
  simp only [add_right_inj, Nat.cast_inj] at h
  exact h

theorem mem_scannedKeys {g : GridIndex} {position : Vec3} {size : ℚ}
    {k : CellKey} :
    k ∈ scannedKeys g position size ↔
      (⌊(position.x - size) / g.cellSize⌋ ≤ k.1 ∧
        k.1 ≤ ⌊(position.x + size) / g.cellSize⌋) ∧
      (⌊(position.y - size) / g.cellSize⌋ ≤ k.2.1 ∧
        k.2.1 ≤ ⌊(position.y + size) / g.cellSize⌋) ∧
      (⌊(position.z - size) / g.cellSize⌋ ≤ k.2.2 ∧
        k.2.2 ≤ ⌊(position.z + size) / g.cellSize⌋) := by
  obtain ⟨x, y, z⟩ := k
  rw [scannedKeys]
  simp only [List.mem_flatMap, List.mem_map, mem_intRange, Prod.mk.injEq]
  constructor
  · rintro ⟨x', hx', y', hy', z', hz', rfl, rfl, rfl⟩
    exact ⟨hx', hy', hz'⟩
  · rintro ⟨hx, hy, hz⟩
    exact ⟨x, hx, y, hy, z, hz, rfl, rfl, rfl⟩

theorem nodup_scannedKeys (g : GridIndex) (position : Vec3) (size : ℚ) :
    (scannedKeys g position size).Nodup := by
  rw [scannedKeys, List.nodup_flatMap]
  refine ⟨fun x _ => ?_, ?_⟩
  · rw [List.nodup_flatMap]
    refine ⟨fun y _ => ?_, ?_⟩
    · refine List.Nodup.map ?_ (nodup_intRange _ _)
      intro z1 z2 h
      exact (Prod.mk.injEq _ _ _ _ ▸ congrArg Prod.snd h : (_ ∧ _)).2.symm ▸ rfl
    · refine (nodup_intRange _ _).imp ?_
      intro y1 y2 hne
      simp only [Function.onFun, List.disjoint_left, List.mem_map]
      rintro k ⟨z1, _, rfl⟩ ⟨z2, _, hk⟩
      obtain ⟨-, h2, -⟩ := Prod.mk.injEq .. ▸ hk
      exact hne (by simpa using congrArg (fun p => p.2.1) hk)
  · refine (nodup_intRange _ _).imp ?_
    intro x1 x2 hne
    simp only [Function.onFun, List.disjoint_left, List.mem_flatMap,
      List.mem_map]
    rintro k ⟨y1, _, z1, _, rfl⟩ ⟨y2, _, z2, _, hk⟩
    exact hne (by simpa using (congrArg Prod.fst hk).symm)

theorem mem_findPointsInCube_build {ps : List Vec3} {cs : ℚ} {position : Vec3}
    {size : ℚ} {j : ℕ} :
    j ∈ findPointsInCube (buildIndex ps cs) position size ↔
      j < ps.length ∧
        cellKey cs (ps.getD j default) ∈
          scannedKeys (buildIndex ps cs) position size := by
  rw [findPointsInCube]
  simp only [List.mem_flatMap,
    show (buildIndex ps cs).cells = buildCells ps cs from rfl,
    mem_getCellPoints_buildCells]
  constructor
  · rintro ⟨k, hk, hj, rfl⟩
    exact ⟨hj, hk⟩
  · rintro ⟨hj, hk⟩
    exact ⟨_, hk, hj, rfl⟩

theorem nodup_findPointsInCube_build (ps : List Vec3) (cs : ℚ)
    (position : Vec3) (size : ℚ) :
    (findPointsInCube (buildIndex ps cs) position size).Nodup := by
  rw [findPointsInCube, List.nodup_flatMap]
  refine ⟨fun k _ => nodup_getCellPoints_buildCells ps cs k, ?_⟩
  refine (nodup_scannedKeys _ _ _).imp ?_
  intro k1 k2 hne
  simp only [Function.onFun, List.disjoint_left]
  intro j hj1 hj2
  rw [show (buildIndex ps cs).cells = buildCells ps cs from rfl] at hj1 hj2
  rw [mem_getCellPoints_buildCells] at hj1 hj2
  exact hne (hj1.2 ▸ hj2.2 ▸ rfl)

/-- The cell of a point inside the query cube lies in the scanned range:
monotonicity of `Math.floor(coordinate / cellSize)` in the coordinate. -/
theorem cellKey_mem_scannedKeys {ps : List Vec3} {cs : ℚ} (hcs : 0 < cs)
    {center : Vec3} {size : ℚ} {p : Vec3}
    (hx1 : center.x - size ≤ p.x) (hx2 : p.x ≤ center.x + size)
    (hy1 : center.y - size ≤ p.y) (hy2 : p.y ≤ center.y + size)
    (hz1 : center.z - size ≤ p.z) (hz2 : p.z ≤ center.z + size) :
    cellKey cs p ∈ scannedKeys (buildIndex ps cs) center size := by
  rw [mem_scannedKeys]
  refine ⟨⟨?_, ?_⟩, ⟨?_, ?_⟩, ⟨?_, ?_⟩⟩ <;>
    exact Int.floor_le_floor (div_le_div_of_nonneg_right (by assumption) hcs.le)

/-- C2 — Index completeness: `build` places every point index in exactly one
cell (the cell of `floor(coordinate / cellSize)` per axis), and a
`findPointsInCube` query whose cube covers the whole point set returns every
point index below the point count, without duplicates. -/
theorem spatialIndex_completeness (ps : List Vec3) (cs : ℚ) (hcs : 0 < cs)
    (center : Vec3) (size : ℚ)
    (hcover : ∀ p ∈ ps,
      center.x - size ≤ p.x ∧ p.x ≤ center.x + size ∧
      center.y - size ≤ p.y ∧ p.y ≤ center.y + size ∧
      center.z - size ≤ p.z ∧ p.z ≤ center.z + size) :
    (findPointsInCube (buildIndex ps cs) center size).Nodup ∧
      ∀ j : ℕ, j ∈ findPointsInCube (buildIndex ps cs) center size ↔
        j < ps.length := by
  refine ⟨nodup_findPointsInCube_build ps cs center size, fun j => ?_⟩
  rw [mem_findPointsInCube_build]
  constructor
  · exact And.left
  · intro hj
    have hp : ps.getD j default ∈ ps := by
      rw [List.getD_eq_getElem ps default hj]
      exact List.getElem_mem hj
    obtain ⟨h1, h2, h3, h4, h5, h6⟩ := hcover _ hp
    exact ⟨hj, cellKey_mem_scannedKeys hcs h1 h2 h3 h4 h5 h6⟩

/-- Witness for C2 at a concrete two-point cloud with a cube that covers it. -/
theorem spatialIndex_completeness_witness :
    (0 : ℚ) < 1 ∧
    (∀ p ∈ [(⟨0, 0, 0⟩ : Vec3), ⟨1/2, 1/2, 1/2⟩],
      (⟨1/4, 1/4, 1/4⟩ : Vec3).x - 1 ≤ p.x ∧ p.x ≤ (⟨1/4, 1/4, 1/4⟩ : Vec3).x + 1 ∧
      (⟨1/4, 1/4, 1/4⟩ : Vec3).y - 1 ≤ p.y ∧ p.y ≤ (⟨1/4, 1/4, 1/4⟩ : Vec3).y + 1 ∧
      (⟨1/4, 1/4, 1/4⟩ : Vec3).z - 1 ≤ p.z ∧ p.z ≤ (⟨1/4, 1/4, 1/4⟩ : Vec3).z + 1) ∧
    ((findPointsInCube (buildIndex [⟨0, 0, 0⟩, ⟨1/2, 1/2, 1/2⟩] 1)
        ⟨1/4, 1/4, 1/4⟩ 1).Nodup ∧
      ∀ j : ℕ, j ∈ findPointsInCube (buildIndex [⟨0, 0, 0⟩, ⟨1/2, 1/2, 1/2⟩] 1)
          ⟨1/4, 1/4, 1/4⟩ 1 ↔ j < ([(⟨0, 0, 0⟩ : Vec3), ⟨1/2, 1/2, 1/2⟩]).length) :=
  ⟨by norm_num,
    by
      intro p hp
      fin_cases hp <;> norm_num,
    spatialIndex_completeness [⟨0, 0, 0⟩, ⟨1/2, 1/2, 1/2⟩] 1 (by norm_num)
      ⟨1/4, 1/4, 1/4⟩ 1
      (by
        intro p hp
        fin_cases hp <;> norm_num)⟩

/-- C4 counterexample — the claim that `findPointsInCube` always scans at
least the full 3×3×3 neighborhood of the cell containing the query center is
false: with `cellSize = 1`, a query at `(19/20, 1/2, 1/2)` with half-width
`1/25` scans only the single cell `(0,0,0)`, so the adjacent cell `(1,0,0)` —
which holds the point `(21/20, 1/2, 1/2)`, only `1/10` away from the center —
is neither scanned nor reported. -/
theorem findPointsInCube_neighborhood_cex :
    ¬ (∀ (ps : List Vec3) (cs : ℚ) (center : Vec3) (size : ℚ) (dx dy dz : ℤ),
        -1 ≤ dx → dx ≤ 1 → -1 ≤ dy → dy ≤ 1 → -1 ≤ dz → dz ≤ 1 →
        ((cellKey cs center).1 + dx, (cellKey cs center).2.1 + dy,
          (cellKey cs center).2.2 + dz) ∈
            scannedKeys (buildIndex ps cs) center size) := by
  intro h
  have hmem := h [⟨1/2, 1/2, 1/2⟩, ⟨21/20, 1/2, 1/2⟩] 1 ⟨19/20, 1/2, 1/2⟩
    (1/25) 1 0 0 (by norm_num) (by norm_num) (by norm_num) (by norm_num)
    (by norm_num) (by norm_num)
  refine absurd hmem ?_
  norm_num [scannedKeys, intRange, cellKey, buildIndex, mem_scannedKeys,
    Int.floor_eq_iff]

/-- C4 amended — `findPointsInCube` scans exactly the cells whose index lies
in `[floor((c - s)/cellSize), floor((c + s)/cellSize)]` on each axis: this
range always covers the query cube itself (so every point whose coordinates
lie within `[center ± halfWidth]` is reported, however small the half-width),
but it can be a single cell, and a point in an adjacent cell outside the range
is not reported. -/
theorem findPointsInCube_scan_range (ps : List Vec3) (cs : ℚ) (hcs : 0 < cs)
    (center : Vec3) (size : ℚ) :
    (∀ k : CellKey, k ∈ scannedKeys (buildIndex ps cs) center size ↔
      (⌊(center.x - size) / cs⌋ ≤ k.1 ∧ k.1 ≤ ⌊(center.x + size) / cs⌋) ∧
      (⌊(center.y - size) / cs⌋ ≤ k.2.1 ∧ k.2.1 ≤ ⌊(center.y + size) / cs⌋) ∧
      (⌊(center.z - size) / cs⌋ ≤ k.2.2 ∧ k.2.2 ≤ ⌊(center.z + size) / cs⌋)) ∧
    (∀ j : ℕ, j < ps.length →
      (center.x - size ≤ (ps.getD j default).x ∧
        (ps.getD j default).x ≤ center.x + size ∧
        center.y - size ≤ (ps.getD j default).y ∧
        (ps.getD j default).y ≤ center.y + size ∧
        center.z - size ≤ (ps.getD j default).z ∧
        (ps.getD j default).z ≤ center.z + size) →
      j ∈ findPointsInCube (buildIndex ps cs) center size) := by
  constructor
  · intro k
    exact mem_scannedKeys
  · intro j hj hin
    rw [mem_findPointsInCube_build]
    obtain ⟨h1, h2, h3, h4, h5, h6⟩ := hin
    exact ⟨hj, cellKey_mem_scannedKeys hcs h1 h2 h3 h4 h5 h6⟩

/-- Witness for C4 (amended): at the counterexample's configuration, the point
inside the tiny cube is still reported. -/
theorem findPointsInCube_scan_range_witness :
    (0 : ℚ) < 1 ∧
    ((1 : ℕ) < ([(⟨1/2, 1/2, 1/2⟩ : Vec3), ⟨21/20, 21/20, 21/20⟩]).length) ∧
    (1 ∈ findPointsInCube
      (buildIndex [⟨1/2, 1/2, 1/2⟩, ⟨21/20, 21/20, 21/20⟩] 1)
      ⟨21/20, 21/20, 21/20⟩ (1/25)) :=
  ⟨by norm_num, by decide,
    ((findPointsInCube_scan_range [⟨1/2, 1/2, 1/2⟩, ⟨21/20, 21/20, 21/20⟩] 1
      (by norm_num) ⟨21/20, 21/20, 21/20⟩ (1/25)).2 1 (by decide)
      (by norm_num [List.getD]))⟩

/-! ## Lemmas: the chunked segmentation applier -/

theorem processPoint_eq_set (seg : List ℤ) (orig : List Color3)
    (colors : List Color3) (i : ℕ) :
    processPoint seg orig colors i = colors.set i (pointColor seg orig i) := by
  rw [processPoint, pointColor]
  exact (apply_ite (colors.set i) _ _ _).symm

theorem length_processPoint (seg : List ℤ) (orig : List Color3)
    (colors : List Color3) (i : ℕ) :
    (processPoint seg orig colors i).length = colors.length := by
  rw [processPoint_eq_set, List.length_set]

theorem getElem?_processPoint (seg : List ℤ) (orig : List Color3)
    (colors : List Color3) (i j : ℕ) :
    (processPoint seg orig colors i)[j]? =
      if i = j ∧ j < colors.length then some (pointColor seg orig i)
      else colors[j]? := by
  rw [processPoint_eq_set, List.getElem?_set]
  by_cases h1 : i = j
  · subst h1
    by_cases h2 : i < colors.length
    · simp [h2]
    · simp [h2]
      omega
  · simp [h1]

theorem length_processRange (seg : List ℤ) (orig : List Color3)
    (colors : List Color3) (lo hi : ℕ) :
    (processRange seg orig colors lo hi).length = colors.length := by
  rw [processRange]
  generalize List.range' lo (hi - lo) = l
  induction l generalizing colors with
  | nil => rfl
  | cons a l ih => rw [List.foldl_cons, ih, length_processPoint]

theorem getElem?_processRange_aux (seg : List ℤ) (orig : List Color3) :
    ∀ (k lo : ℕ) (colors : List Color3) (j : ℕ),
    (processRange seg orig colors lo (lo + k))[j]? =
      if lo ≤ j ∧ j < lo + k ∧ j < colors.length
      then some (pointColor seg orig j) else colors[j]? := by
  intro k
  induction k with
  | zero =>
      intro lo colors j
      rw [processRange]
      simp only [Nat.add_zero, Nat.sub_self, List.range', List.foldl_nil]
      have hno : ¬(lo ≤ j ∧ j < lo ∧ j < colors.length) := by omega
      rw [if_neg hno]
  | succ k ih =>
      intro lo colors j
      have hstep : processRange seg orig colors lo (lo + (k + 1)) =
          processRange seg orig (processPoint seg orig colors lo)
            (lo + 1) ((lo + 1) + k) := by
        rw [processRange, processRange]
        rw [show lo + (k + 1) - lo = k + 1 by omega,
          show (lo + 1) + k - (lo + 1) = k by omega]
        rw [List.range'_succ, List.foldl_cons]
      rw [hstep, ih, length_processPoint, getElem?_processPoint]
      by_cases h1 : j < colors.length
      · by_cases h2 : j = lo
        · subst h2
          rw [if_neg (by omega), if_pos ⟨rfl, h1⟩, if_pos (by omega)]
        · by_cases h3 : lo + 1 ≤ j ∧ j < lo + 1 + k
          · rw [if_pos ⟨h3.1, h3.2, h1⟩, if_pos (by omega)]
          · rw [if_neg (by omega), if_neg (fun h => h2 h.1.symm),
              if_neg (by omega)]
      · rw [if_neg (by omega), if_neg (fun h => h1 h.2), if_neg (by omega)]

theorem getElem?_processRange (seg : List ℤ) (orig : List Color3)
    (colors : List Color3) {lo hi : ℕ} (h : lo ≤ hi) (j : ℕ) :
    (processRange seg orig colors lo hi)[j]? =
      if lo ≤ j ∧ j < hi ∧ j < colors.length
      then some (pointColor seg orig j) else colors[j]? := by
  have := getElem?_processRange_aux seg orig (hi - lo) lo colors j
  rw [show lo + (hi - lo) = hi by omega] at this
  exact this

theorem processRange_trans (seg : List ℤ) (orig : List Color3)
    (colors : List Color3) {a b c : ℕ} (hab : a ≤ b) (hbc : b ≤ c) :
    processRange seg orig (processRange seg orig colors a b) b c =
      processRange seg orig colors a c := by
  have happ := List.range'_append a (b - a) (c - b) 1
  rw [show a + 1 * (b - a) = b by omega,
    show (c - b) + (b - a) = c - a by omega] at happ
  rw [processRange, processRange, processRange, ← happ, List.foldl_append]

theorem processChunks_spec (seg : List ℤ) (orig : List Color3) (n : ℕ) :
    ∀ (d cur : ℕ) (colors : List Color3), n - cur ≤ d →
      (processChunks seg orig n cur colors).1 =
          processRange seg orig colors cur n ∧
        (processChunks seg orig n cur colors).2.1 = 1 := by
  intro d
  induction d with
  | zero =>
      intro cur colors hd
      rw [processChunks]
      have hend : min (cur + segChunkSize) n = n := by
        rw [segChunkSize]; omega
      rw [dif_neg (by omega)]
      refine ⟨?_, rfl⟩
      simp only [hend]
  | succ d ih =>
      intro cur colors hd
      rw [processChunks]
      by_cases h : min (cur + segChunkSize) n < n
      · rw [dif_pos h]
        have hch : 0 < segChunkSize := by rw [segChunkSize]; omega
        have hcur : cur < min (cur + segChunkSize) n := by omega
        obtain ⟨ih1, ih2⟩ := ih (min (cur + segChunkSize) n)
          (processRange seg orig colors cur (min (cur + segChunkSize) n))
          (by omega)
        refine ⟨?_, ih2⟩
        rw [ih1, processRange_trans seg orig colors (by omega) (by omega)]
      · rw [dif_neg h]
        have hend : min (cur + segChunkSize) n = n := by omega
        refine ⟨?_, rfl⟩
        simp only [hend]

theorem processRange_zero_eq_singlePass (seg : List ℤ) (orig : List Color3)
    (colors : List Color3) :
    processRange seg orig colors 0 colors.length =
      singlePassApplySpec seg orig colors := by
  apply List.ext_getElem?
  intro j
  rw [getElem?_processRange seg orig colors (Nat.zero_le _) j,
    singlePassApplySpec, List.getElem?_map]
  by_cases hj : j < colors.length
  · rw [List.getElem?_range hj, if_pos ⟨Nat.zero_le _, hj, hj⟩, pointColor]
    rfl
  · rw [if_neg (by omega),
      List.getElem?_eq_none (by omega),
      List.getElem?_eq_none (by rw [List.length_range]; omega)]
    rfl

theorem singlePassApplySpec_all_zero (seg : List ℤ) (orig : List Color3)
    (colors : List Color3) (h0 : ∀ i ∈ seg, i = 0)
    (hlen : orig.length = colors.length) :
    singlePassApplySpec seg orig colors = orig := by
  apply List.ext_getElem?
  intro j
  rw [singlePassApplySpec, List.getElem?_map]
  have hseg : seg.getD j 0 = 0 := by
    rw [List.getD_eq_getElem?_getD]
    rcases hsj : seg[j]? with _ | v
    · rfl
    · exact h0 v (List.getElem?_mem hsj)
  by_cases hj : j < colors.length
  · rw [List.getElem?_range hj, Option.map_some', hseg]
    rw [if_neg (by simp), List.getD_eq_getElem?_getD]
    rcases ho : orig[j]? with _ | v
    · rw [List.getElem?_eq_none_iff] at ho
      omega
    · rfl
  · rw [List.getElem?_eq_none (by rw [List.length_range]; omega),
      List.getElem?_eq_none (by omega)]
    rfl

/-- C6 — A label array whose length differs from the point count makes
`applySegmentation` abort before processing any point: `currentColors` is
untouched and zero points are iterated. -/
theorem applySegmentation_mismatch_noop (data : PointCloudData) (seg : List ℤ)
    (hmm : seg.length ≠ data.pointCount) :
    (applySegmentation data seg).currentColors = data.currentColors ∧
    (applySegmentation data seg).processedPoints = 0 := by
  rw [applySegmentation]
  by_cases h1 : data.hasGeometry = false ∨ data.currentColors = none ∨
      data.originalColors = none
  · rw [if_pos h1]
    exact ⟨rfl, rfl⟩
  · rw [if_neg h1, if_pos hmm]
    exact ⟨rfl, rfl⟩

/-- Witness for C6: a one-point cloud given an empty label array. -/
theorem applySegmentation_mismatch_noop_witness :
    (([] : List ℤ).length ≠ 1) ∧
    ((applySegmentation ⟨true, some [⟨0, 0, 0⟩], some [⟨0, 0, 0⟩], 1⟩ []).currentColors
        = some [⟨0, 0, 0⟩] ∧
      (applySegmentation ⟨true, some [⟨0, 0, 0⟩], some [⟨0, 0, 0⟩], 1⟩ []).processedPoints
        = 0) :=
  ⟨by decide,
    applySegmentation_mismatch_noop ⟨true, some [⟨0, 0, 0⟩], some [⟨0, 0, 0⟩], 1⟩
      [] (by decide)⟩

/-- C3 — Chunked-apply equivalence: for a label array of the right length, the
chunked `applySegmentation` run produces exactly the colors of the
hypothetical uninterrupted single pass (label color for nonzero labels, the
original color for label `0`); in particular an all-zero label array leaves
`currentColors` equal to `originalColors`. -/
theorem applySegmentation_eq_singlePass (data : PointCloudData) (seg : List ℤ)
    (colors orig : List Color3)
    (hg : data.hasGeometry = true)
    (hc : data.currentColors = some colors)
    (ho : data.originalColors = some orig)
    (hlen : seg.length = data.pointCount)
    (hn : data.pointCount = colors.length) :
    (applySegmentation data seg).currentColors =
      some (singlePassApplySpec seg orig colors) ∧
    ((∀ i ∈ seg, i = 0) → orig.length = colors.length →
      (applySegmentation data seg).currentColors = some orig) := by
  have h1 : ¬(data.hasGeometry = false ∨ data.currentColors = none ∨
      data.originalColors = none) := by
    simp [hg, hc, ho]
  have hmain : (applySegmentation data seg).currentColors =
      some (singlePassApplySpec seg orig colors) := by
    rw [applySegmentation, if_neg h1, if_neg (by omega)]
    have hspec := (processChunks_spec seg (data.originalColors.getD [])
      data.pointCount data.pointCount 0 (data.currentColors.getD [])
      (by omega)).1
    simp only [hc, ho, Option.getD_some] at hspec ⊢
    rw [hspec, hn, processRange_zero_eq_singlePass]
  refine ⟨hmain, fun h0 hlen2 => ?_⟩
  rw [hmain, singlePassApplySpec_all_zero seg orig colors h0 hlen2]

/-- Witness for C3: a one-point cloud with the all-zero label array; the run
restores the original colors. -/
theorem applySegmentation_eq_singlePass_witness :
    (([(0 : ℤ)].length = 1) ∧ (∀ i ∈ [(0 : ℤ)], i = 0)) ∧
    (applySegmentation ⟨true, some [⟨0, 0, 0⟩], some [⟨1, 0, 0⟩], 1⟩
        [0]).currentColors = some [⟨1, 0, 0⟩] :=
  ⟨⟨by decide, by decide⟩,
    (applySegmentation_eq_singlePass ⟨true, some [⟨0, 0, 0⟩], some [⟨1, 0, 0⟩], 1⟩
      [0] [⟨0, 0, 0⟩] [⟨1, 0, 0⟩] rfl rfl rfl (by decide) (by decide)).2
      (by decide) (by decide)⟩

/-- C10 — `applySegmentation` fires `onComplete` exactly once on every call,
both error paths included, and the error paths process zero points; the
function never throws (it is total). -/
theorem applySegmentation_onComplete_once (data : PointCloudData)
    (seg : List ℤ) :
    (applySegmentation data seg).completeCalls = 1 ∧
    ((data.hasGeometry = false ∨ data.currentColors = none ∨
        data.originalColors = none ∨ seg.length ≠ data.pointCount) →
      (applySegmentation data seg).processedPoints = 0) := by
  constructor
  · rw [applySegmentation]
    by_cases h1 : data.hasGeometry = false ∨ data.currentColors = none ∨
        data.originalColors = none
    · rw [if_pos h1]
    · rw [if_neg h1]
      by_cases h2 : seg.length ≠ data.pointCount
      · rw [if_pos h2]
      · rw [if_neg h2]
        exact (processChunks_spec seg (data.originalColors.getD [])
          data.pointCount data.pointCount 0 (data.currentColors.getD [])
          (by omega)).2
  · intro herr
    rw [applySegmentation]
    by_cases h1 : data.hasGeometry = false ∨ data.currentColors = none ∨
        data.originalColors = none
    · rw [if_pos h1]
    · have h2 : seg.length ≠ data.pointCount := by tauto
      rw [if_neg h1, if_pos h2]

/-- Witness for C10: the error path with a missing geometry still completes
exactly once, with zero points processed. -/
theorem applySegmentation_onComplete_once_witness :
    (applySegmentation ⟨false, some [⟨0, 0, 0⟩], some [⟨0, 0, 0⟩], 1⟩
        [0]).completeCalls = 1 ∧
    (applySegmentation ⟨false, some [⟨0, 0, 0⟩], some [⟨0, 0, 0⟩], 1⟩
        [0]).processedPoints = 0 :=
  ⟨(applySegmentation_onComplete_once ⟨false, some [⟨0, 0, 0⟩], some [⟨0, 0, 0⟩], 1⟩
      [0]).1,
    (applySegmentation_onComplete_once ⟨false, some [⟨0, 0, 0⟩], some [⟨0, 0, 0⟩], 1⟩
      [0]).2 (Or.inl rfl)⟩

/-! ## Lemmas: nearest-point resolution -/

theorem nearest_foldl_spec (ps : List Vec3) (position : Vec3) :
    ∀ (l : List ℕ) (md : ℚ) (ni : ℤ),
      (l.foldl (nearestStep ps position) (md, ni) = (md, ni) ∧
        ∀ j ∈ l, md ≤ sqDistTo ps position j) ∨
      (∃ i ∈ l, l.foldl (nearestStep ps position) (md, ni) =
          (sqDistTo ps position i, (i : ℤ)) ∧
        sqDistTo ps position i < md ∧
        ∀ j ∈ l, sqDistTo ps position i ≤ sqDistTo ps position j) := by
  intro l
  induction l with
  | nil => intro md ni; exact Or.inl ⟨rfl, by simp⟩
  | cons a l ih =>
      intro md ni
      rw [List.foldl_cons]
      by_cases ha : sqDistTo ps position a < md
      · rw [show nearestStep ps position (md, ni) a =
            (sqDistTo ps position a, (a : ℤ)) from by
          rw [nearestStep]; exact if_pos ha]
        rcases ih (sqDistTo ps position a) (a : ℤ) with ⟨heq, hall⟩ |
            ⟨i, hi, heq, hlt, hmin⟩
        · refine Or.inr ⟨a, List.mem_cons_self a l, heq, ha, ?_⟩
          intro j hj
          rcases List.mem_cons.mp hj with rfl | hj
          · exact le_refl _
          · exact hall j hj
        · refine Or.inr ⟨i, List.mem_cons_of_mem a hi, heq,
            lt_trans hlt ha, ?_⟩
          intro j hj
          rcases List.mem_cons.mp hj with rfl | hj
          · exact le_of_lt hlt
          · exact hmin j hj
      · rw [show nearestStep ps position (md, ni) a = (md, ni) from by
          rw [nearestStep]; exact if_neg ha]
        rcases ih md ni with ⟨heq, hall⟩ | ⟨i, hi, heq, hlt, hmin⟩
        · refine Or.inl ⟨heq, ?_⟩
          intro j hj
          rcases List.mem_cons.mp hj with rfl | hj
          · exact not_lt.mp ha
          · exact hall j hj
        · refine Or.inr ⟨i, List.mem_cons_of_mem a hi, heq, hlt, ?_⟩
          intro j hj
          rcases List.mem_cons.mp hj with rfl | hj
          · exact le_of_lt (lt_of_lt_of_le hlt (not_lt.mp ha))
          · exact hmin j hj

/-- C7 — Nearest-point resolution: when every candidate's squared distance is
below `Number.MAX_VALUE` (always true for real inputs), `findNearestPoint`
returns `null` exactly when the cube query is empty, and otherwise returns a
candidate of minimal squared distance together with that point's exact stored
coordinates. -/
theorem findNearestPoint_spec (g : GridIndex) (ps : List Vec3) (cubeSize : ℚ)
    (position : Vec3) (maxD : ℚ)
    (hbound : ∀ j ∈ findPointsInCube g position cubeSize,
      sqDistTo ps position j < numberMaxValue) :
    ((findNearestPoint g ps cubeSize position maxD = none) ↔
      findPointsInCube g position cubeSize = []) ∧
    (∀ r : ClickResult, findNearestPoint g ps cubeSize position maxD = some r →
      0 ≤ r.index ∧
      r.index.toNat ∈ findPointsInCube g position cubeSize ∧
      r.position = ps.getD r.index.toNat default ∧
      ∀ j ∈ findPointsInCube g position cubeSize,
        sqDistTo ps position r.index.toNat ≤ sqDistTo ps position j) := by
  rcases hl : findPointsInCube g position cubeSize with _ | ⟨a, l⟩
  · constructor
    · rw [findNearestPoint, hl]
      simp
    · intro r hr
      rw [findNearestPoint, hl] at hr
      simp at hr
  · rcases nearest_foldl_spec ps position (a :: l) numberMaxValue (-1) with
      ⟨_, hall⟩ | ⟨i, hi, heq, _, hmin⟩
    · exact absurd (hbound a (by rw [hl]; exact List.mem_cons_self a l))
        (not_lt.mpr (hall a (List.mem_cons_self a l)))
    · have hres : findNearestPoint g ps cubeSize position maxD =
          some { position := ps.getD i default, index := (i : ℤ) } := by
        rw [findNearestPoint, hl]
        simp only [heq, List.length_cons]
        rw [if_pos (Nat.succ_pos _), if_pos (Int.natCast_nonneg i)]
        rfl
      constructor
      · rw [hres]
        simp
      · intro r hr
        rw [hres] at hr
        obtain rfl : r = { position := ps.getD i default, index := (i : ℤ) } :=
          (Option.some_injective _ hr).symm
        refine ⟨Int.natCast_nonneg i, ?_, ?_, ?_⟩
        · show ((i : ℤ)).toNat ∈ a :: l
          simpa using hi
        · rfl
        · intro j hj
          show sqDistTo ps position ((i : ℤ)).toNat ≤ sqDistTo ps position j
          simpa using hmin j hj

/-- Witness for C7 at a one-point cloud: the bound on candidate distances
holds and the characterization applies. -/
theorem findNearestPoint_spec_witness :
    (∀ j ∈ findPointsInCube (buildIndex [⟨1/2, 1/2, 1/2⟩] 1)
        ⟨1/2, 1/2, 1/2⟩ (1/4),
      sqDistTo [⟨1/2, 1/2, 1/2⟩] ⟨1/2, 1/2, 1/2⟩ j < numberMaxValue) ∧
    (((findNearestPoint (buildIndex [⟨1/2, 1/2, 1/2⟩] 1) [⟨1/2, 1/2, 1/2⟩]
          (1/4) ⟨1/2, 1/2, 1/2⟩ (1/10) = none) ↔
        findPointsInCube (buildIndex [⟨1/2, 1/2, 1/2⟩] 1)
          ⟨1/2, 1/2, 1/2⟩ (1/4) = []) ∧
      (∀ r : ClickResult,
        findNearestPoint (buildIndex [⟨1/2, 1/2, 1/2⟩] 1) [⟨1/2, 1/2, 1/2⟩]
            (1/4) ⟨1/2, 1/2, 1/2⟩ (1/10) = some r →
        0 ≤ r.index ∧
        r.index.toNat ∈ findPointsInCube (buildIndex [⟨1/2, 1/2, 1/2⟩] 1)
          ⟨1/2, 1/2, 1/2⟩ (1/4) ∧
        r.position = ([(⟨1/2, 1/2, 1/2⟩ : Vec3)]).getD r.index.toNat default ∧
        ∀ j ∈ findPointsInCube (buildIndex [⟨1/2, 1/2, 1/2⟩] 1)
            ⟨1/2, 1/2, 1/2⟩ (1/4),
          sqDistTo [⟨1/2, 1/2, 1/2⟩] ⟨1/2, 1/2, 1/2⟩ r.index.toNat ≤
            sqDistTo [⟨1/2, 1/2, 1/2⟩] ⟨1/2, 1/2, 1/2⟩ j)) := by
  have heval : findPointsInCube (buildIndex [⟨1/2, 1/2, 1/2⟩] 1)
      ⟨1/2, 1/2, 1/2⟩ (1/4) = [0] := by
    norm_num [findPointsInCube, buildIndex, buildCells, insertToCell, cellKey,
      scannedKeys, intRange, getCellPoints, List.lookup,
      Int.floor_eq_iff, List.range_succ]
  have hb : ∀ j ∈ findPointsInCube (buildIndex [⟨1/2, 1/2, 1/2⟩] 1)
      ⟨1/2, 1/2, 1/2⟩ (1/4),
      sqDistTo [⟨1/2, 1/2, 1/2⟩] ⟨1/2, 1/2, 1/2⟩ j < numberMaxValue := by
    intro j hj
    rw [heval] at hj
    simp only [List.mem_singleton] at hj
    subst hj
    norm_num [sqDistTo, numberMaxValue]
  exact ⟨hb, findNearestPoint_spec (buildIndex [⟨1/2, 1/2, 1/2⟩] 1)
    [⟨1/2, 1/2, 1/2⟩] (1/4) ⟨1/2, 1/2, 1/2⟩ (1/10) hb⟩

/-- C5 — Background clicks never recolor: `applySelection` with
`objectIdx == 0` returns zero affected points and the empty index list, leaves
the whole state untouched, and stays a no-op under any number of
repetitions. -/
theorem applySelection_background_noop (env : AnnEnv) (st : AnnState)
    (position : Vec3) (fromUndo : Bool) (n : ℕ) :
    applySelection env st position 0 fromUndo =
      (st, { count := 0, indices := [] }) ∧
    (fun s => (applySelection env s position 0 fromUndo).1)^[n] st = st := by
  have h1 : applySelection env st position 0 fromUndo =
      (st, { count := 0, indices := [] }) := by
    rw [applySelection]
    exact if_pos rfl
  exact ⟨h1, Function.iterate_fixed (congrArg Prod.fst h1) n⟩

/-! ## Lemmas: the selection engine -/

theorem applySelection_fresh (env : AnnEnv) (st : AnnState) (position : Vec3)
    (objectIdx : ℤ) (h : objectIdx ≠ 0) :
    applySelection env st position objectIdx false =
      ({ st with
          undoStack := selCapture env st position,
          currentColors := writeColorAt st.currentColors
            (findPointsInCube env.spatialIndex position env.cubeSize)
            (getSelectionColor ClickMode.object (some objectIdx)) },
        { count := (findPointsInCube env.spatialIndex position env.cubeSize).length,
          indices := findPointsInCube env.spatialIndex position env.cubeSize }) := by
  rw [applySelection, if_neg h]
  dsimp only
  rw [selCapture]
  by_cases hl : 0 < (findPointsInCube env.spatialIndex position env.cubeSize).length
  · rw [if_pos (show false = false ∧
        0 < (findPointsInCube env.spatialIndex position env.cubeSize).length
        from ⟨rfl, hl⟩), if_pos hl]
  · rw [if_neg (show ¬(false = false ∧
        0 < (findPointsInCube env.spatialIndex position env.cubeSize).length)
        from fun hc => hl hc.2), if_neg hl]

theorem applySelection_replay (env : AnnEnv) (st : AnnState) (position : Vec3)
    (objectIdx : ℤ) (h : objectIdx ≠ 0) :
    applySelection env st position objectIdx true =
      ({ st with
          currentColors := writeColorAt st.currentColors
            (findPointsInCube env.spatialIndex position env.cubeSize)
            (getSelectionColor ClickMode.object (some objectIdx)) },
        { count := (findPointsInCube env.spatialIndex position env.cubeSize).length,
          indices := findPointsInCube env.spatialIndex position env.cubeSize }) := by
  rw [applySelection, if_neg h]
  dsimp only
  rw [if_neg (show ¬(true = false ∧
      0 < (findPointsInCube env.spatialIndex position env.cubeSize).length)
      from fun hc => by simpa using hc.1)]

theorem length_writeColorAt (colors : List Color3) (idxs : List ℕ)
    (color : Color3) :
    (writeColorAt colors idxs color).length = colors.length := by
  rw [writeColorAt]
  induction idxs generalizing colors with
  | nil => rfl
  | cons a l ih => rw [List.foldl_cons, ih, List.length_set]

theorem getElem?_writeColorAt (colors : List Color3) (idxs : List ℕ)
    (color : Color3) (j : ℕ) :
    (writeColorAt colors idxs color)[j]? =
      if j ∈ idxs ∧ j < colors.length then some color else colors[j]? := by
  rw [writeColorAt]
  induction idxs generalizing colors with
  | nil =>
      rw [List.foldl_nil, if_neg (by simp)]
  | cons a l ih =>
      rw [List.foldl_cons, ih, List.length_set, List.getElem?_set]
      by_cases hj : j < colors.length
      · by_cases hmem : j ∈ l
        · rw [if_pos ⟨hmem, hj⟩, if_pos ⟨List.mem_cons_of_mem a hmem, hj⟩]
        · by_cases ha : a = j
          · rw [if_neg (fun hc => hmem hc.1), if_pos ha,
              if_pos (show a < colors.length by omega),
              if_pos (⟨by rw [← ha]; exact List.mem_cons_self a l, hj⟩ :
                j ∈ a :: l ∧ j < colors.length)]
          · rw [if_neg (fun hc => hmem hc.1), if_neg ha,
              if_neg (fun hc =>
                (List.mem_cons.mp hc.1).elim (fun e => ha e.symm) hmem)]
      · have hln : colors[j]? = none := List.getElem?_eq_none (by omega)
        by_cases ha : a = j
        · rw [if_neg (fun hc => hj hc.2), if_pos ha, if_neg (by omega),
            if_neg (fun hc => hj hc.2), hln]
        · rw [if_neg (fun hc => hj hc.2), if_neg ha,
            if_neg (fun hc => hj hc.2)]

theorem writeColorAt_idem (colors : List Color3) (idxs : List ℕ)
    (color : Color3) :
    writeColorAt (writeColorAt colors idxs color) idxs color =
      writeColorAt colors idxs color := by
  apply List.ext_getElem?
  intro j
  rw [getElem?_writeColorAt, getElem?_writeColorAt, length_writeColorAt]
  by_cases hc : j ∈ idxs ∧ j < colors.length
  · rw [if_pos hc, if_pos hc]
  · rw [if_neg hc, if_neg hc]

/-- The label color of object 1 under the shared color scheme:
hue `50/360`, full saturation, half lightness gives RGB `(1, 5/6, 0)`. -/
theorem getSelectionColor_one :
    getSelectionColor ClickMode.object (some 1) = ⟨1, 5/6, 0⟩ := by
  have ht : jsModInt (1 * 50) 360 = 50 := by decide
  show getColorFromIndex 1 = _
  rw [getColorFromIndex, ht]
  norm_num [setHSL, euclideanModulo, jsMod, ratTrunc, clampQ, hue2rgb,
    Int.floor_eq_iff, Color3.mk.injEq]

/-- The cube query of the one-point example environment returns the single
point. -/
theorem exEnv_findPointsInCube :
    findPointsInCube exEnv.spatialIndex ⟨1/2, 1/2, 1/2⟩ exEnv.cubeSize = [0] := by
  norm_num [exEnv, findPointsInCube, buildIndex, buildCells, insertToCell,
    cellKey, scannedKeys, intRange, getCellPoints, List.lookup,
    Int.floor_eq_iff, List.range_succ]

/-- C8 counterexample — applying `applySelection` twice with the same inputs
is NOT idempotent on the full program state: the second call recaptures
`previousColors` into the same top undo entry, overwriting the genuine
pre-click snapshot `(0,0,0)` with the already-applied label color
`(1, 5/6, 0)`. -/
theorem applySelection_twice_state_cex :
    (applySelection exEnv (applySelection exEnv
        (addClickPoint exState ⟨1/2, 1/2, 1/2⟩ 1 (some 0) none false).1
        ⟨1/2, 1/2, 1/2⟩ 1 false).1 ⟨1/2, 1/2, 1/2⟩ 1 false).1 ≠
      (applySelection exEnv
        (addClickPoint exState ⟨1/2, 1/2, 1/2⟩ 1 (some 0) none false).1
        ⟨1/2, 1/2, 1/2⟩ 1 false).1 := by
  have hadd : (addClickPoint exState ⟨1/2, 1/2, 1/2⟩ 1 (some 0) none false).1 =
      { clickedPoints := [⟨⟨1/2, 1/2, 1/2⟩, 1, 0, some 0⟩],
        undoStack := [⟨⟨⟨1/2, 1/2, 1/2⟩, 1, 0, some 0⟩, none, none, none⟩],
        redoStack := [], currentColors := [⟨0, 0, 0⟩], nextMarkerId := 0 } := rfl
  have hcap1 : selCapture exEnv
      { clickedPoints := [⟨⟨1/2, 1/2, 1/2⟩, 1, 0, some 0⟩],
        undoStack := [⟨⟨⟨1/2, 1/2, 1/2⟩, 1, 0, some 0⟩, none, none, none⟩],
        redoStack := [], currentColors := [⟨0, 0, 0⟩], nextMarkerId := 0 }
      ⟨1/2, 1/2, 1/2⟩ =
      [⟨⟨⟨1/2, 1/2, 1/2⟩, 1, 0, some 0⟩, none, some [0], some [⟨0, 0, 0⟩]⟩] := by
    rw [selCapture, exEnv_findPointsInCube]
    rfl
  have honce : (applySelection exEnv
      (addClickPoint exState ⟨1/2, 1/2, 1/2⟩ 1 (some 0) none false).1
      ⟨1/2, 1/2, 1/2⟩ 1 false).1 =
      { clickedPoints := [⟨⟨1/2, 1/2, 1/2⟩, 1, 0, some 0⟩],
        undoStack := [⟨⟨⟨1/2, 1/2, 1/2⟩, 1, 0, some 0⟩, none, some [0],
          some [⟨0, 0, 0⟩]⟩],
        redoStack := [], currentColors := [⟨1, 5/6, 0⟩], nextMarkerId := 0 } := by
    rw [hadd, applySelection_fresh exEnv _ _ _ one_ne_zero,
      exEnv_findPointsInCube, getSelectionColor_one]
    dsimp only
    rw [hcap1]
    rfl
  have hcap2 : selCapture exEnv
      { clickedPoints := [⟨⟨1/2, 1/2, 1/2⟩, 1, 0, some 0⟩],
        undoStack := [⟨⟨⟨1/2, 1/2, 1/2⟩, 1, 0, some 0⟩, none, some [0],
          some [⟨0, 0, 0⟩]⟩],
        redoStack := [], currentColors := [⟨1, 5/6, 0⟩], nextMarkerId := 0 }
      ⟨1/2, 1/2, 1/2⟩ =
      [⟨⟨⟨1/2, 1/2, 1/2⟩, 1, 0, some 0⟩, none, some [0], some [⟨1, 5/6, 0⟩]⟩] := by
    rw [selCapture, exEnv_findPointsInCube]
    rfl
  have htwice : (applySelection exEnv (applySelection exEnv
      (addClickPoint exState ⟨1/2, 1/2, 1/2⟩ 1 (some 0) none false).1
      ⟨1/2, 1/2, 1/2⟩ 1 false).1 ⟨1/2, 1/2, 1/2⟩ 1 false).1 =
      { clickedPoints := [⟨⟨1/2, 1/2, 1/2⟩, 1, 0, some 0⟩],
        undoStack := [⟨⟨⟨1/2, 1/2, 1/2⟩, 1, 0, some 0⟩, none, some [0],
          some [⟨1, 5/6, 0⟩]⟩],
        redoStack := [], currentColors := [⟨1, 5/6, 0⟩], nextMarkerId := 0 } := by
    rw [honce, applySelection_fresh exEnv _ _ _ one_ne_zero,
      exEnv_findPointsInCube, getSelectionColor_one]
    dsimp only
    rw [hcap2]
    rfl
  rw [htwice, honce]
  intro heq
  have hu := congrArg AnnState.undoStack heq
  simp only [List.cons.injEq, HistAction.mk.injEq, Option.some.injEq,
    Color3.mk.injEq, and_true] at hu
  norm_num at hu

/-- C8 amended — `applySelection` applied twice with the same inputs and no
undo in between yields the same `currentColors` and the same returned
`{count, indices}` as a single application (the label color overwrites), but
the top undo entry's `previousColors` snapshot is overwritten by the second
call with the already-recolored values, so the history stacks differ. -/
theorem applySelection_twice_colors (env : AnnEnv) (st : AnnState)
    (position : Vec3) (objectIdx : ℤ) :
    ((applySelection env (applySelection env st position objectIdx false).1
        position objectIdx false).1).currentColors =
      ((applySelection env st position objectIdx false).1).currentColors ∧
    (applySelection env (applySelection env st position objectIdx false).1
        position objectIdx false).2 =
      (applySelection env st position objectIdx false).2 := by
  by_cases h : objectIdx = 0
  · subst h
    have h0 : ∀ s : AnnState, applySelection env s position 0 false =
        (s, { count := 0, indices := [] }) := fun s => by
      rw [applySelection]
      exact if_pos rfl
    rw [h0, h0]
    exact ⟨rfl, rfl⟩
  · rw [applySelection_fresh env st position objectIdx h,
      applySelection_fresh env _ position objectIdx h]
    exact ⟨writeColorAt_idem st.currentColors _ _, rfl⟩

/-- C9 counterexample — `timeIdx` is NOT strictly increasing across creations:
after a click (timeIdx 0) is undone, the next `addClickPoint` reuses
`clickedPoints.length = 0`, so the later click's sequence number equals (is
not greater than) that of the click created before it. -/
theorem clickPoint_timeIdx_cex :
    ((addClickPoint
        (undo (addClickPoint exState ⟨1/2, 1/2, 1/2⟩ 1 (some 0) none false).1).1
        ⟨1/2, 1/2, 1/2⟩ 2 (some 0) none false).2).timeIdx =
      ((addClickPoint exState ⟨1/2, 1/2, 1/2⟩ 1 (some 0) none false).2).timeIdx ∧
    ¬ (((addClickPoint
        (undo (addClickPoint exState ⟨1/2, 1/2, 1/2⟩ 1 (some 0) none false).1).1
        ⟨1/2, 1/2, 1/2⟩ 2 (some 0) none false).2).timeIdx >
      ((addClickPoint exState ⟨1/2, 1/2, 1/2⟩ 1 (some 0) none false).2).timeIdx) := by
  constructor
  · rfl
  · intro hgt
    have h1 : ((addClickPoint
        (undo (addClickPoint exState ⟨1/2, 1/2, 1/2⟩ 1 (some 0) none false).1).1
        ⟨1/2, 1/2, 1/2⟩ 2 (some 0) none false).2).timeIdx = 0 := rfl
    have h2 : ((addClickPoint exState ⟨1/2, 1/2, 1/2⟩ 1
        (some 0) none false).2).timeIdx = 0 := rfl
    rw [h1, h2] at hgt
    exact Nat.lt_irrefl 0 hgt

/-- C9 amended — a new `ClickPoint`'s `timeIdx` equals the number of active
clicks at its creation; consecutive `addClickPoint` calls with no removal in
between therefore get strictly increasing sequence numbers, but after an undo
removes a click a later click can reuse an earlier `timeIdx` (see the
counterexample), so a sequence number alone does not uniquely re-identify a
click across undos. -/
theorem addClickPoint_timeIdx_amended (st : AnnState) (p1 p2 : Vec3)
    (o1 o2 : ℤ) (i1 i2 m1 m2 : Option ℕ) (u1 u2 : Bool) :
    ((addClickPoint st p1 o1 i1 m1 u1).2).timeIdx = st.clickedPoints.length ∧
    ((addClickPoint (addClickPoint st p1 o1 i1 m1 u1).1 p2 o2 i2 m2
        u2).2).timeIdx =
      ((addClickPoint st p1 o1 i1 m1 u1).2).timeIdx + 1 := by
  have key : ∀ (s : AnnState) (p : Vec3) (o : ℤ) (i m : Option ℕ) (u : Bool),
      ((addClickPoint s p o i m u).2).timeIdx = s.clickedPoints.length ∧
      ((addClickPoint s p o i m u).1).clickedPoints.length =
        s.clickedPoints.length + 1 := by
    intro s p o i m u
    rw [addClickPoint]
    cases u
    · exact ⟨rfl, by simp⟩
    · exact ⟨rfl, by simp⟩
  refine ⟨(key st p1 o1 i1 m1 u1).1, ?_⟩
  rw [(key _ p2 o2 i2 m2 u2).1, (key st p1 o1 i1 m1 u1).2,
    (key st p1 o1 i1 m1 u1).1]

/-! ## Lemmas and constructions for the undo/redo round trip -/

theorem updateLast_concat (f : HistAction → HistAction)
    (l : List HistAction) (a : HistAction) :
    updateLast f (l ++ [a]) = l ++ [f a] := by
  induction l with
  | nil => rfl
  | cons b l ih =>
      cases l with
      | nil => rfl
      | cons b' l' =>
          show b :: updateLast f ((b' :: l') ++ [a]) = b :: ((b' :: l') ++ [f a])
          rw [ih]

theorem mkAct_clickPoint (env : AnnEnv) (C : List Color3) (t : ℕ) (c : Click) :
    (mkAct env C t c).clickPoint = ⟨c.position, c.objectIdx, t, c.index⟩ := by
  rw [mkAct]
  dsimp only
  by_cases h : 0 < (findPointsInCube env.spatialIndex c.position env.cubeSize).length
  · rw [if_pos h]
  · rw [if_neg h]

theorem actsOf_length (env : AnnEnv) :
    ∀ (cs : List Click) (C : List Color3) (t : ℕ),
      (actsOf env C t cs).length = cs.length := by
  intro cs
  induction cs with
  | nil => intro C t; rfl
  | cons c cs ih =>
      intro C t
      rw [actsOf, List.length_cons, List.length_cons, ih]

theorem runColors_append (env : AnnEnv) (C : List Color3) (ds : List Click)
    (c : Click) :
    runColors env C (ds ++ [c]) =
      clickWrite env (runColors env C ds) c.position c.objectIdx := by
  rw [runColors, List.foldl_append, List.foldl_cons, List.foldl_nil]
  rfl

theorem actsOf_append (env : AnnEnv) :
    ∀ (ds : List Click) (C : List Color3) (t : ℕ) (c : Click),
      actsOf env C t (ds ++ [c]) =
        actsOf env C t ds ++
          [mkAct env (runColors env C ds) (t + ds.length) c] := by
  intro ds
  induction ds with
  | nil =>
      intro C t c
      rw [List.nil_append, actsOf, actsOf, actsOf]
      rfl
  | cons d ds ih =>
      intro C t c
      rw [List.cons_append, actsOf, actsOf, ih, List.cons_append]
      have h1 : runColors env (clickWrite env C d.position d.objectIdx) ds =
          runColors env C (d :: ds) := rfl
      rw [h1]
      have h2 : t + 1 + ds.length = t + (d :: ds).length := by
        rw [List.length_cons]; omega
      rw [h2]

theorem applyClick_state (env : AnnEnv) (st : AnnState) (c : Click)
    (h : c.objectIdx ≠ 0) :
    applyClick env st c =
      { clickedPoints := st.clickedPoints ++
          [⟨c.position, c.objectIdx, st.clickedPoints.length, c.index⟩]
        undoStack := st.undoStack ++
          [mkAct env st.currentColors st.clickedPoints.length c]
        redoStack := []
        currentColors := clickWrite env st.currentColors c.position c.objectIdx
        nextMarkerId := st.nextMarkerId } := by
  have hcap : selCapture env
      { clickedPoints := st.clickedPoints ++
          [⟨c.position, c.objectIdx, st.clickedPoints.length, c.index⟩]
        undoStack := st.undoStack ++
          [⟨⟨c.position, c.objectIdx, st.clickedPoints.length, c.index⟩,
            none, none, none⟩]
        redoStack := []
        currentColors := st.currentColors
        nextMarkerId := st.nextMarkerId } c.position =
      st.undoStack ++ [mkAct env st.currentColors st.clickedPoints.length c] := by
    rw [selCapture, mkAct]
    dsimp only
    by_cases hl :
        0 < (findPointsInCube env.spatialIndex c.position env.cubeSize).length
    · rw [if_pos hl, if_pos hl, updateLast_concat]
    · rw [if_neg hl, if_neg hl]
  have hadd : (addClickPoint st c.position c.objectIdx c.index none false).1 =
      { clickedPoints := st.clickedPoints ++
          [⟨c.position, c.objectIdx, st.clickedPoints.length, c.index⟩]
        undoStack := st.undoStack ++
          [⟨⟨c.position, c.objectIdx, st.clickedPoints.length, c.index⟩,
            none, none, none⟩]
        redoStack := []
        currentColors := st.currentColors
        nextMarkerId := st.nextMarkerId } := rfl
  rw [applyClick, hadd, applySelection_fresh env _ _ _ h]
  dsimp only
  rw [hcap]
  rfl

theorem applyClicks_spec (env : AnnEnv) :
    ∀ (cs : List Click) (st : AnnState),
      (∀ c ∈ cs, c.objectIdx ≠ 0) →
      (applyClicks env st cs).undoStack =
          st.undoStack ++ actsOf env st.currentColors st.clickedPoints.length cs ∧
        (applyClicks env st cs).currentColors =
          runColors env st.currentColors cs ∧
        (applyClicks env st cs).redoStack =
          (if cs = [] then st.redoStack else []) := by
  intro cs
  induction cs with
  | nil =>
      intro st _
      exact ⟨by rw [actsOf, List.append_nil]; rfl, rfl, by rw [if_pos rfl]; rfl⟩
  | cons c cs ih =>
      intro st hobj
      have hc : c.objectIdx ≠ 0 := hobj c (List.mem_cons_self c cs)
      have hstep : applyClicks env st (c :: cs) =
          applyClicks env (applyClick env st c) cs := rfl
      obtain ⟨ihU, ihC, ihR⟩ :=
        ih (applyClick env st c) (fun d hd => hobj d (List.mem_cons_of_mem c hd))
      rw [hstep]
      rw [applyClick_state env st c hc] at ihU ihC ihR ⊢
      dsimp only at ihU ihC ihR
      refine ⟨?_, ?_, ?_⟩
      · rw [ihU, actsOf, List.append_assoc, List.length_append,
          List.length_cons, List.length_nil, List.singleton_append,
          Nat.zero_add]
      · rw [ihC, runColors, runColors, List.foldl_cons]
      · rw [ihR]
        by_cases hcs : cs = []
        · rw [if_pos hcs, if_neg (by simp)]
        · rw [if_neg hcs, if_neg (by simp)]

theorem restoreColors_cons (X : List Color3) (a : ℕ) (l : List ℕ)
    (c : Color3) (cols : List Color3) :
    restoreColors X (a :: l) (c :: cols) = restoreColors (X.set a c) l cols := by
  rw [restoreColors, restoreColors]
  rw [show (a :: l).length = l.length + 1 from rfl, List.range_succ_eq_map,
    List.foldl_cons, List.foldl_map]
  rfl

theorem restoreColors_map_getElem? (g : ℕ → Color3) :
    ∀ (idxs : List ℕ) (X : List Color3) (j : ℕ),
      (restoreColors X idxs (idxs.map g))[j]? =
        if j ∈ idxs ∧ j < X.length then some (g j) else X[j]? := by
  intro idxs
  induction idxs with
  | nil =>
      intro X j
      rw [show restoreColors X [] ([].map g) = X from rfl,
        if_neg (by simp)]
  | cons a l ih =>
      intro X j
      rw [List.map_cons, restoreColors_cons, ih, List.length_set]
      by_cases hj : j < X.length
      · by_cases hmem : j ∈ l
        · rw [if_pos ⟨hmem, hj⟩, if_pos ⟨List.mem_cons_of_mem a hmem, hj⟩]
        · by_cases ha : a = j
          · rw [if_neg (fun hc => hmem hc.1), List.getElem?_set, if_pos ha,
              if_pos (show a < X.length by omega),
              if_pos (⟨by rw [← ha]; exact List.mem_cons_self a l, hj⟩ :
                j ∈ a :: l ∧ j < X.length)]
            rw [ha]
          · rw [if_neg (fun hc => hmem hc.1), List.getElem?_set, if_neg ha,
              if_neg (fun hc =>
                (List.mem_cons.mp hc.1).elim (fun e => ha e.symm) hmem)]
      · have hln : X[j]? = none := List.getElem?_eq_none (by omega)
        by_cases ha : a = j
        · rw [if_neg (fun hc => hj hc.2), List.getElem?_set, if_pos ha,
            if_neg (by omega), if_neg (fun hc => hj hc.2), hln]
        · rw [if_neg (fun hc => hj hc.2), List.getElem?_set, if_neg ha,
            if_neg (fun hc => hj hc.2)]

theorem restoreColors_writeColorAt (D : List Color3) (idxs : List ℕ)
    (col : Color3) :
    restoreColors (writeColorAt D idxs col) idxs
      (idxs.map (fun i => D.getD i default)) = D := by
  apply List.ext_getElem?
  intro j
  rw [restoreColors_map_getElem? (fun i => D.getD i default) idxs
    (writeColorAt D idxs col) j]
  rw [length_writeColorAt, getElem?_writeColorAt]
  by_cases hc : j ∈ idxs ∧ j < D.length
  · rw [if_pos hc, List.getD_eq_getElem D default hc.2,
      List.getElem?_eq_getElem hc.2]
  · rw [if_neg hc, if_neg hc]

theorem restoreAct_mkAct (env : AnnEnv) (D : List Color3) (t : ℕ) (c : Click) :
    restoreAct (clickWrite env D c.position c.objectIdx) (mkAct env D t c) =
      D := by
  rw [restoreAct, mkAct, clickWrite]
  dsimp only
  by_cases hl : 0 < (findPointsInCube env.spatialIndex c.position env.cubeSize).length
  · rw [if_pos hl]
    exact restoreColors_writeColorAt D _ _
  · rw [if_neg hl]
    have hnil : findPointsInCube env.spatialIndex c.position env.cubeSize = [] :=
      List.length_eq_zero.mp (by omega)
    rw [hnil]
    rfl

theorem undo_concat (st : AnnState) (U : List HistAction) (a : HistAction)
    (hU : st.undoStack = U ++ [a]) :
    ((undo st).1).undoStack = U ∧
    ((undo st).1).redoStack = st.redoStack ++ [a] ∧
    ((undo st).1).currentColors = restoreAct st.currentColors a := by
  rw [undo, hU, List.getLast?_concat]
  dsimp only
  rw [List.dropLast_concat]
  rw [restoreAct]
  rcases a with ⟨cp, mid, aff, prev⟩
  rcases aff with _ | idxs <;> rcases prev with _ | cols <;> dsimp only <;>
    [skip; skip; skip;
     rw [show restorePointColors
        { clickedPoints := st.clickedPoints, undoStack := U,
          redoStack := st.redoStack ++
            [⟨cp, mid, some idxs, some cols⟩],
          currentColors := st.currentColors,
          nextMarkerId := st.nextMarkerId } idxs cols =
        { clickedPoints := st.clickedPoints, undoStack := U,
          redoStack := st.redoStack ++ [⟨cp, mid, some idxs, some cols⟩],
          currentColors := restoreColors st.currentColors idxs cols,
          nextMarkerId := st.nextMarkerId } from rfl]] <;>
    (rcases hfind : List.findIdx?
        (fun p => p.timeIdx == cp.timeIdx && p.objectIdx == cp.objectIdx)
        st.clickedPoints with _ | i <;>
      simp only [hfind] <;> refine ⟨?_, ?_, ?_⟩ <;> trivial)

theorem undoSteps_spec (env : AnnEnv) :
    ∀ (cs : List Click) (st : AnnState) (C : List Color3) (t : ℕ)
      (U : List HistAction),
      (∀ c ∈ cs, c.objectIdx ≠ 0) →
      st.undoStack = U ++ actsOf env C t cs →
      st.currentColors = runColors env C cs →
      (undoSteps cs.length st).undoStack = U ∧
      (undoSteps cs.length st).redoStack =
        st.redoStack ++ (actsOf env C t cs).reverse ∧
      (undoSteps cs.length st).currentColors = C := by
  intro cs
  induction cs using List.reverseRecOn with
  | nil =>
      intro st C t U _ hU hC
      refine ⟨?_, ?_, ?_⟩
      · simpa [actsOf] using hU
      · simp [actsOf, undoSteps]
      · simpa [runColors] using hC
  | append_singleton ds c ih =>
      intro st C t U hobj hU hC
      have hobj' : ∀ d ∈ ds, d.objectIdx ≠ 0 := fun d hd =>
        hobj d (List.mem_append_left _ hd)
      rw [actsOf_append] at hU
      have hU' : st.undoStack = (U ++ actsOf env C t ds) ++
          [mkAct env (runColors env C ds) (t + ds.length) c] := by
        rw [hU, List.append_assoc]
      obtain ⟨h1, h2, h3⟩ := undo_concat st _ _ hU'
      have hcol : ((undo st).1).currentColors = runColors env C ds := by
        rw [h3, hC, runColors_append, restoreAct_mkAct]
      have hlen : (ds ++ [c]).length = ds.length + 1 := by simp
      rw [hlen]
      have hstep : undoSteps (ds.length + 1) st =
          undoSteps ds.length ((undo st).1) :=
        Function.iterate_succ_apply _ _ _
      rw [hstep]
      obtain ⟨g1, g2, g3⟩ := ih ((undo st).1) C t U hobj' h1 hcol
      refine ⟨g1, ?_, g3⟩
      rw [g2, h2, actsOf_append, List.reverse_append, List.append_assoc]
      rfl

theorem redo_concat (env : AnnEnv) (st : AnnState) (R : List HistAction)
    (a : HistAction) (hR : st.redoStack = R ++ [a]) :
    ((redo env st).1).redoStack = R ∧
    ((redo env st).1).currentColors =
      (if a.clickPoint.objectIdx ≠ 0 then
        clickWrite env st.currentColors a.clickPoint.position
          a.clickPoint.objectIdx
      else st.currentColors) := by
  rw [redo, hR, List.getLast?_concat]
  dsimp only
  rw [List.dropLast_concat]
  have haddt : ∀ (s : AnnState) (p : Vec3) (o : ℤ) (i m : Option ℕ),
      (addClickPoint s p o i m true).1 =
        { s with clickedPoints :=
            s.clickedPoints ++ [⟨p, o, s.clickedPoints.length, i⟩] } :=
    fun s p o i m => rfl
  rw [haddt]
  by_cases ho : a.clickPoint.objectIdx ≠ 0
  · rw [if_pos ho, if_pos ho, applySelection_replay env _ _ _ ho]
    exact ⟨rfl, rfl⟩
  · rw [if_neg ho, if_neg ho]
    exact ⟨rfl, rfl⟩

theorem redoSteps_spec (env : AnnEnv) :
    ∀ (l : List HistAction) (st : AnnState) (R : List HistAction),
      st.redoStack = R ++ l.reverse →
      (redoSteps env l.length st).redoStack = R ∧
      (redoSteps env l.length st).currentColors =
        l.foldl (fun C a =>
          if a.clickPoint.objectIdx ≠ 0 then
            clickWrite env C a.clickPoint.position a.clickPoint.objectIdx
          else C) st.currentColors := by
  intro l
  induction l with
  | nil =>
      intro st R hR
      exact ⟨by simpa using hR, rfl⟩
  | cons a l ih =>
      intro st R hR
      have hR' : st.redoStack = (R ++ l.reverse) ++ [a] := by
        rw [hR, List.reverse_cons, List.append_assoc]
      obtain ⟨h1, h2⟩ := redo_concat env st _ _ hR'
      have hstep : redoSteps env (l.length + 1) st =
          redoSteps env l.length ((redo env st).1) :=
        Function.iterate_succ_apply _ _ _
      rw [List.length_cons, hstep]
      obtain ⟨g1, g2⟩ := ih ((redo env st).1) R h1
      exact ⟨g1, by rw [g2, h2, List.foldl_cons]⟩

theorem foldl_step_actsOf (env : AnnEnv) :
    ∀ (cs : List Click) (C D : List Color3) (t : ℕ),
      (∀ c ∈ cs, c.objectIdx ≠ 0) →
      (actsOf env D t cs).foldl (fun C2 a =>
        if a.clickPoint.objectIdx ≠ 0 then
          clickWrite env C2 a.clickPoint.position a.clickPoint.objectIdx
        else C2) C = runColors env C cs := by
  intro cs
  induction cs with
  | nil => intro C D t _; rfl
  | cons c cs ih =>
      intro C D t hobj
      have hc : c.objectIdx ≠ 0 := hobj c (List.mem_cons_self c cs)
      rw [actsOf, List.foldl_cons, mkAct_clickPoint]
      dsimp only
      rw [if_pos hc]
      rw [ih (clickWrite env C c.position c.objectIdx) _ _
        (fun d hd => hobj d (List.mem_cons_of_mem c hd))]
      rfl

/-- C1 — Undo/redo round trip: applying any sequence of object clicks
(`addClickPoint` followed by `applySelection`, fixed cube half-width and color
scheme), then undoing them all, then redoing them all reproduces
`currentColors` exactly as it was after the original clicks. -/
theorem undo_redo_roundtrip (env : AnnEnv) (cs : List Click) (st0 : AnnState)
    (hobj : ∀ c ∈ cs, c.objectIdx ≠ 0) :
    (redoSteps env cs.length
        (undoSteps cs.length (applyClicks env st0 cs))).currentColors =
      (applyClicks env st0 cs).currentColors := by
  obtain ⟨hU, hC, hR⟩ := applyClicks_spec env cs st0 hobj
  obtain ⟨g1, g2, g3⟩ := undoSteps_spec env cs (applyClicks env st0 cs)
    st0.currentColors st0.clickedPoints.length st0.undoStack hobj hU hC
  have hlen := actsOf_length env cs st0.currentColors st0.clickedPoints.length
  obtain ⟨r1, r2⟩ := redoSteps_spec env
    (actsOf env st0.currentColors st0.clickedPoints.length cs)
    (undoSteps cs.length (applyClicks env st0 cs))
    ((applyClicks env st0 cs).redoStack) (by rw [g2])
  rw [hlen] at r2
  rw [r2, g3, foldl_step_actsOf env cs st0.currentColors st0.currentColors
    st0.clickedPoints.length hobj, hC]

/-- Witness for C1: one object click on the one-point cloud, undone and
redone. -/
theorem undo_redo_roundtrip_witness :
    (∀ c ∈ [(⟨⟨1/2, 1/2, 1/2⟩, 1, some 0⟩ : Click)], c.objectIdx ≠ 0) ∧
    (redoSteps exEnv ([(⟨⟨1/2, 1/2, 1/2⟩, 1, some 0⟩ : Click)]).length
        (undoSteps ([(⟨⟨1/2, 1/2, 1/2⟩, 1, some 0⟩ : Click)]).length
          (applyClicks exEnv exState
            [(⟨⟨1/2, 1/2, 1/2⟩, 1, some 0⟩ : Click)]))).currentColors =
      (applyClicks exEnv exState
        [(⟨⟨1/2, 1/2, 1/2⟩, 1, some 0⟩ : Click)]).currentColors :=
  ⟨by decide,
    undo_redo_roundtrip exEnv [⟨⟨1/2, 1/2, 1/2⟩, 1, some 0⟩] exState
      (by decide)⟩
